import Mathlib

/-!
Verification of the zeroperl-ts host runtime.

The repository exposes a WASI-style host for a WebAssembly Perl
interpreter.  The files under scrutiny are the args feature provider
(useArgs, giving args_get and args_sizes_get), the process-control
provider (useProc, giving proc_exit and proc_raise), the virtual
filesystem with its deferred-content resolution pass, and the ZeroPerl
host controller.  Pure fragments are embedded as Lean functions; guest
memory is a finite byte list; fallible operations return Except.
-/

namespace ZeroPerl

/-- A raised host-level signal: either the distinguished WASIProcExit
control value carrying an exit code, or a JavaScript RangeError raised
by a DataView write that falls outside the view bounds. -/
inductive HostSignal where
  | procExit (code : Int)
  | rangeError
deriving DecidableEq

/-- Guest linear memory as seen through a DataView: a finite byte list.
Index j holds the byte at address j; writes past the end raise
rangeError, exactly as a JavaScript DataView does. -/
structure DataView where
  bytes : List Nat
deriving DecidableEq

/-- Byte length of the view. -/
def DataView.size (v : DataView) : Nat := v.bytes.length

/-- DataView.setUint8: store one byte (value taken mod 256) at the given
offset, raising rangeError when the offset is out of bounds. -/
def DataView.setUint8 (v : DataView) (off val : Nat) : Except HostSignal DataView :=
  if off < v.bytes.length then .ok ⟨v.bytes.set off (val % 256)⟩
  else .error .rangeError

/-- Store a list of bytes at consecutive offsets via setUint8, as the
marshalling loop of the ABI layer does. -/
def DataView.writeBytes (v : DataView) (bs : List Nat) (off : Nat) : Except HostSignal DataView :=
  match bs with
  | [] => .ok v
  | b :: rest => do
      let v1 ← v.setUint8 off b
      v1.writeBytes rest (off + 1)

/-- Little-endian byte encoding of a 32-bit word. -/
def le32 (val : Nat) : List Nat :=
  [val % 256, val / 256 % 256, val / 65536 % 256, val / 16777216 % 256]

/-- DataView.setUint32 with littleEndian set to true: bounds-check the
four-byte slot, then store the little-endian bytes of the value. -/
def DataView.setUint32 (v : DataView) (off val : Nat) : Except HostSignal DataView :=
  if off + 4 ≤ v.bytes.length then v.writeBytes (le32 val) off
  else .error .rangeError

/-- UTF-8 encoding of a host string, as TextEncoder produces it. -/
def utf8Bytes (s : String) : List Nat :=
  (s.data.flatMap String.utf8EncodeChar).map (fun b => b.toNat)

/-- Size report of the argument vector: a count and a buffer size. -/
structure StringArraySizes where
  count : Nat
  bufferSize : Nat
deriving DecidableEq

/-- Modelled from the spec: WASIAbi.stringArraySize returns the number
of strings together with the total trailing-nul-inclusive byte length of
all strings. -/
def stringArraySize (strings : List String) : StringArraySizes :=
  { count := strings.length
    bufferSize := (strings.map (fun s => (utf8Bytes s).length + 1)).sum }

/-- Modelled from the spec: WASIAbi.writeStringArray writes each string
as null-terminated bytes into the buffer region starting at buf, and
writes the resulting absolute addresses as little-endian 32-bit words
into the pointer array starting at iovs; a write past the view bounds
fails with the out-of-bounds rangeError and never silently truncates. -/
def writeStringArray (v : DataView) (strings : List String) (iovs buf : Nat) :
    Except HostSignal DataView :=
  match strings with
  | [] => .ok v
  | s :: rest => do
      let v1 ← v.setUint32 iovs buf
      let bs := utf8Bytes s ++ [0]
      let v2 ← v1.writeBytes bs buf
      writeStringArray v2 rest (iovs + 4) (buf + bs.length)

/-- WASIAbi.WASI_ESUCCESS, the success result code. -/
def WASI_ESUCCESS : Nat := 0

/-- The import map produced by the args feature provider. -/
structure ArgsProvider where
  args_get : DataView → Nat → Nat → Except HostSignal (Nat × DataView)
  args_sizes_get : DataView → Nat → Nat → Except HostSignal (Nat × DataView)

/-- The useArgs feature provider: captures options.args (defaulting a
missing field to the empty vector), and returns args_get, which fills
guest memory through writeStringArray and then reports WASI_ESUCCESS,
and args_sizes_get, which stores the argument count at argc and the
stringArraySize buffer total at argvBufSize, reporting WASI_ESUCCESS. -/
def useArgs (optionsArgs : Option (List String)) : ArgsProvider :=
  let args := optionsArgs.getD []
  { args_get := fun view argv argvBuf =>
      (writeStringArray view args argv argvBuf).map (fun v => (WASI_ESUCCESS, v))
    args_sizes_get := fun view argc argvBufSize => do
      let v1 ← view.setUint32 argc args.length
      let sizes := stringArraySize args
      let v2 ← v1.setUint32 argvBufSize sizes.bufferSize
      return (WASI_ESUCCESS, v2) }

/-- The import map produced by the process-control feature provider. -/
structure ProcProvider where
  proc_exit : Int → Except HostSignal Nat
  proc_raise : Nat → Except HostSignal Nat

/-- The useProc feature provider: proc_exit throws the distinguished
WASIProcExit value carrying the code, and proc_raise is a stub that
returns WASI_ESUCCESS. -/
def useProc : ProcProvider :=
  { proc_exit := fun code => .error (.procExit code)
    proc_raise := fun _ => .ok WASI_ESUCCESS }

/-- Concatenated, trailing-nul-terminated UTF-8 bytes of an argument
vector: exactly the byte image writeStringArray lays out at buf. -/
def argsBytes (strings : List String) : List Nat :=
  strings.flatMap (fun s => utf8Bytes s ++ [0])

/-- The little-endian pointer words writeStringArray lays out at iovs:
the address of each successive string within the buffer region. -/
def ptrBytes (buf : Nat) : List String → List Nat
  | [] => []
  | s :: rest => le32 buf ++ ptrBytes (buf + ((utf8Bytes s).length + 1)) rest

/-- Content of a virtual filesystem node: Inline bytes, or a Deferred
blob (a File or Blob object) whose bytes can only be obtained through an
asynchronous materialization step; the payload records the bytes that
materialization eventually yields. -/
inductive FileContent where
  | inline (bytes : List Nat)
  | deferred (bytes : List Nat)
deriving DecidableEq

/-- Modelled from the spec: the MemoryFileSystem path-indexed node
table, newest entry first; addFile overwrites by shadowing. -/
abbrev MemFS := List (String × FileContent)

/-- Modelled from the spec: addFile overwrites any existing node at the
path. -/
def addFile (fs : MemFS) (path : String) (c : FileContent) : MemFS :=
  (path, c) :: fs

/-- Path lookup in the node table: the most recent node wins. -/
def lookupFS (fs : MemFS) (path : String) : Option FileContent :=
  match fs with
  | [] => none
  | (p, c) :: rest => if p = path then some c else lookupFS rest path

/-- The resolution cache: node path to resolved byte buffer. -/
abbrev Cache := List (String × List Nat)

/-- Cache lookup. -/
def lookupCache (cache : Cache) (path : String) : Option (List Nat) :=
  match cache with
  | [] => none
  | (p, b) :: rest => if p = path then some b else lookupCache rest path

/-- Modelled from the spec: resolveAll, the pre-flight resolution pass
the controller runs before each guest entry-point invocation; it
materializes every Deferred node into a byte buffer in the resolution
cache, so no resolution is ever needed once the guest is executing. -/
def resolveAll (fs : MemFS) : Cache :=
  fs.filterMap (fun pc =>
    match pc.2 with
    | .deferred b => some (pc.1, b)
    | .inline _ => none)

/-- One open descriptor-table entry: path, byte cursor and the resolved
backing buffer. -/
structure FSDesc where
  path : String
  cursor : Nat
  buffer : List Nat
deriving DecidableEq

/-- Filesystem-layer outcomes that the file provider translates into
ABI error codes. -/
inductive FSError where
  | notFound
  | badDescriptor
  | notResolved
deriving DecidableEq

/-- Runtime state of the virtual filesystem: node table, resolution
cache and the open-descriptor table. -/
structure FSState where
  fs : MemFS
  cache : Cache
  table : List (Option FSDesc)
deriving DecidableEq

/-- Modelled from the spec: a synchronous read may target a Deferred
node only through its resolution-cache entry; an unresolved Deferred
node cannot be read synchronously and surfaces as notResolved. -/
def resolveContent (cache : Cache) (path : String) : FileContent → Except FSError (List Nat)
  | .inline b => .ok b
  | .deferred _ =>
      match lookupCache cache path with
      | some b => .ok b
      | none => .error .notResolved

/-- Allocate the first free descriptor slot, appending a fresh slot when
every slot is occupied: ids are small integers, reused after close. -/
def allocFD (d : FSDesc) : List (Option FSDesc) → Nat × List (Option FSDesc)
  | [] => (0, [some d])
  | none :: rest => (0, some d :: rest)
  | some x :: rest =>
      let r := allocFD d rest
      (r.1 + 1, some x :: r.2)

/-- Modelled from the spec: open fails with notFound when no node exists
at the path, and otherwise binds a fresh descriptor id to a cursor at
zero and a reference to the resolved buffer. -/
def openFile (st : FSState) (path : String) : Except FSError (Nat × FSState) :=
  match lookupFS st.fs path with
  | none => .error .notFound
  | some c => do
      let buf ← resolveContent st.cache path c
      let r := allocFD ⟨path, 0, buf⟩ st.table
      .ok (r.1, { st with table := r.2 })

/-- Modelled from the spec: read returns up to maxBytes from the buffer
at the current cursor and advances the cursor by the amount returned;
zero bytes at or past the end of the buffer. -/
def readFD (st : FSState) (fd maxBytes : Nat) : Except FSError (List Nat × FSState) :=
  match st.table[fd]? with
  | some (some d) =>
      let out := (d.buffer.drop d.cursor).take maxBytes
      .ok (out, { st with
        table := st.table.set fd (some { d with cursor := d.cursor + out.length }) })
  | _ => .error .badDescriptor

/-- Modelled from the spec: close frees the table slot for reuse;
subsequent operations on the id fail with badDescriptor. -/
def closeFD (st : FSState) (fd : Nat) : Except FSError FSState :=
  match st.table[fd]? with
  | some (some _) => .ok { st with table := st.table.set fd none }
  | _ => .error .badDescriptor

/-- Buffer length visible through an open descriptor (zero when the id
is not open). -/
def fdLen (st : FSState) (fd : Nat) : Nat :=
  match st.table[fd]? with
  | some (some d) => d.buffer.length
  | _ => 0

/-- Open a file, read it to the end through the read syscall, close the
descriptor: the shape of one guest-side open-read-close sequence. -/
def readWholeFile (st : FSState) (path : String) : Except FSError (List Nat × FSState) := do
  let r1 ← openFile st path
  let r2 ← readFD r1.2 r1.1 (fdLen r1.2 r1.1)
  let st3 ← closeFD r2.2 r1.1
  .ok (r2.1, st3)

/-- Read a sequence of files one after another within one evaluation. -/
def readFilesSeq (st : FSState) : List String → Except FSError (List (List Nat) × FSState)
  | [] => .ok ([], st)
  | p :: rest => do
      let r1 ← readWholeFile st p
      let r2 ← readFilesSeq r1.2 rest
      .ok (r1.1 :: r2.1, r2.2)

/-- Bytes the resolution pass materializes for a node: the inline bytes
themselves, or the eventual bytes of the deferred blob. -/
def resolvedBytes : FileContent → List Nat
  | .inline b => b
  | .deferred b => b

/-- Controller lifecycle states reachable after the asynchronous
factory has returned: Ready, and the terminal Disposed. -/
inductive Lifecycle where
  | Ready
  | Disposed
deriving DecidableEq

/-- Result shape of eval and runFile. -/
structure EvalResult where
  success : Bool
  exitCode : Int
  error : Option String
deriving DecidableEq

/-- Observable outcome of one guest entry-point invocation: normal
completion with variable-binding updates, a guest-level script error
raised by the guest error primitive, or termination through the
distinguished WASIProcExit control signal. -/
inductive GuestResult where
  | ok (updates : List (String × String)) (out errOut : List String)
  | scriptError (msg : String) (out errOut : List String)
  | exited (code : Int) (out errOut : List String)

/-- The opaque guest interpreter: code bytes and argument vector to an
invocation outcome. -/
abbrev GuestProgram := List Nat → List String → GuestResult

/-- Modelled from the spec: ZeroPerl controller session state. The
delivered streams record, in order, what the configured stdout and
stderr sink callbacks have received so far. -/
structure Controller where
  lifecycle : Lifecycle
  bufferedStdout : List String
  bufferedStderr : List String
  deliveredStdout : List String
  deliveredStderr : List String
  lastError : String
  vars : List (String × String)
  fs : MemFS
deriving DecidableEq

/-- Guest variable-namespace lookup, most recent binding first. -/
def getVar (vars : List (String × String)) (n : String) : Option String :=
  match vars with
  | [] => none
  | (m, v) :: rest => if m = n then some v else getVar rest n

/-- A disposed-instance error: the only controller-contract violation
the model exercises. -/
inductive ZPError where
  | disposed
deriving DecidableEq

/-- Modelled from the spec: transfer control to the guest evaluate
entry point and capture the outcome. Output is appended to the session
buffers, never handed to the sinks. A script error is captured into
lastError and success false, leaving bindings intact; a process exit is
normal termination recorded as the exitCode field. -/
def evalGuest (g : GuestProgram) (st : Controller) (code : List Nat) (args : List String) :
    EvalResult × Controller :=
  match g code args with
  | .ok ups out errOut =>
      ({ success := true, exitCode := 0, error := none },
       { st with vars := ups ++ st.vars,
                 bufferedStdout := st.bufferedStdout ++ out,
                 bufferedStderr := st.bufferedStderr ++ errOut })
  | .scriptError msg out errOut =>
      ({ success := false, exitCode := 1, error := some msg },
       { st with lastError := msg,
                 bufferedStdout := st.bufferedStdout ++ out,
                 bufferedStderr := st.bufferedStderr ++ errOut })
  | .exited code' out errOut =>
      ({ success := decide (code' = 0), exitCode := code', error := none },
       { st with bufferedStdout := st.bufferedStdout ++ out,
                 bufferedStderr := st.bufferedStderr ++ errOut })

/-- Modelled from the spec: eval marshals the code string and invokes
the guest; on a disposed instance it fails with the disposed error. -/
def Controller.eval (g : GuestProgram) (st : Controller) (code : String)
    (args : List String) : Except ZPError (EvalResult × Controller) :=
  if st.lifecycle = .Disposed then .error .disposed
  else .ok (evalGuest g st (utf8Bytes code) args)

/-- Modelled from the spec: runFile resolves the path in the virtual
filesystem first; when absent it returns success false with lastError
set to the file-not-found message without invoking the guest, otherwise
it behaves as eval on the resolved source bytes of the node. -/
def Controller.runFile (g : GuestProgram) (st : Controller) (path : String)
    (args : List String) : Except ZPError (EvalResult × Controller) :=
  if st.lifecycle = .Disposed then .error .disposed
  else
    match lookupFS st.fs path with
    | none =>
        .ok ({ success := false, exitCode := 1, error := some "File not found" },
          { st with lastError := "File not found" })
    | some c => .ok (evalGuest g st (resolvedBytes c) args)

/-- Modelled from the spec: getVariable bridges into the guest variable
namespace; an unbound name yields the explicit absent value none. -/
def Controller.getVariable (st : Controller) (n : String) :
    Except ZPError (Option String × Controller) :=
  if st.lifecycle = .Disposed then .error .disposed
  else .ok (getVar st.vars n, st)

/-- Modelled from the spec: setVariable binds the name in the guest
variable namespace, shadowing any earlier binding. -/
def Controller.setVariable (st : Controller) (n v : String) :
    Except ZPError Controller :=
  if st.lifecycle = .Disposed then .error .disposed
  else .ok { st with vars := (n, v) :: st.vars }

/-- Modelled from the spec: flush drains the buffered stdout and stderr
into the configured sinks in write order, then clears the buffers. -/
def Controller.flush (st : Controller) : Except ZPError Controller :=
  if st.lifecycle = .Disposed then .error .disposed
  else .ok { st with
    deliveredStdout := st.deliveredStdout ++ st.bufferedStdout,
    deliveredStderr := st.deliveredStderr ++ st.bufferedStderr,
    bufferedStdout := [],
    bufferedStderr := [] }

/-- Modelled from the spec: reset discards interpreter state and
buffers and lastError, retaining configuration. -/
def Controller.reset (st : Controller) : Except ZPError Controller :=
  if st.lifecycle = .Disposed then .error .disposed
  else .ok { st with vars := [], bufferedStdout := [], bufferedStderr := [],
                     lastError := "" }

/-- Modelled from the spec: getLastError reads the captured session
error string. -/
def Controller.getLastError (st : Controller) : Except ZPError (String × Controller) :=
  if st.lifecycle = .Disposed then .error .disposed
  else .ok (st.lastError, st)

/-- Modelled from the spec: clearError resets the captured error string
to empty. -/
def Controller.clearError (st : Controller) : Except ZPError Controller :=
  if st.lifecycle = .Disposed then .error .disposed
  else .ok { st with lastError := "" }

/-- Modelled from the spec: dispose releases the guest instance and
moves the session to the terminal Disposed state. -/
def Controller.dispose (st : Controller) : Controller :=
  { st with lifecycle := .Disposed }

/-- Modelled from the spec: shutdown performs the same teardown as
dispose. -/
def Controller.shutdown (st : Controller) : Controller :=
  st.dispose

/-- The controller operations that require a live instance. -/
inductive Op where
  | evalOp (code : String) (args : List String)
  | runFileOp (path : String) (args : List String)
  | getVarOp (n : String)
  | setVarOp (n v : String)
  | flushOp
  | resetOp
  | getLastErrorOp
  | clearErrorOp
deriving DecidableEq

/-- Uniform dispatch of the controller operations, discarding returned
values and keeping the successor state. -/
def Controller.applyOp (g : GuestProgram) (st : Controller) : Op → Except ZPError Controller
  | .evalOp c a => (st.eval g c a).map (fun r => r.2)
  | .runFileOp p a => (st.runFile g p a).map (fun r => r.2)
  | .getVarOp n => (st.getVariable n).map (fun r => r.2)
  | .setVarOp n v => st.setVariable n v
  | .flushOp => st.flush
  | .resetOp => st.reset
  | .getLastErrorOp => (st.getLastError).map (fun r => r.2)
  | .clearErrorOp => st.clearError

/-- A freshly created Ready controller session with empty buffers, no
captured error, no bindings and an empty filesystem. -/
def readyState : Controller := ⟨.Ready, [], [], [], [], "", [], []⟩

/-- The same session after dispose. -/
def disposedState : Controller := readyState.dispose

/-- A guest whose every invocation completes silently. -/
def gQuiet : GuestProgram := fun _ _ => .ok [] [] []

/-- A guest that calls proc_exit with code 7. -/
def gExit7 : GuestProgram := fun _ _ => .exited 7 [] []

/-- A guest whose every invocation dies with message X, as die X does. -/
def gDieX : GuestProgram := fun _ _ => .scriptError "X" [] []

/-- A guest that prints a when handed the code string A and b
otherwise. -/
def gAB : GuestProgram := fun code _ =>
  if code = utf8Bytes "A" then .ok [] ["a"] [] else .ok [] ["b"] []

/-- Three deferred virtual files mirroring the multiple-asynchronous-
file-reads test. -/
def fsW : MemFS :=
  [("/file1.txt", .deferred (utf8Bytes "First async file")),
   ("/file2.txt", .deferred (utf8Bytes "Second async file")),
   ("/file3.txt", .deferred (utf8Bytes "Third async file"))]

/-- The supplied bytes of each of the three deferred files. -/
def bsW : String → List Nat := fun p =>
  if p = "/file1.txt" then utf8Bytes "First async file"
  else if p = "/file2.txt" then utf8Bytes "Second async file"
  else utf8Bytes "Third async file"

/-- The paths read in sequence in the test scenario. -/
def pathsW : List String := ["/file1.txt", "/file2.txt", "/file3.txt"]

theorem argsBytes_length (strings : List String) :
    (argsBytes strings).length = (stringArraySize strings).bufferSize := by
  induction strings with
  | nil => rfl
  | cons s rest ih =>
      simp [argsBytes, stringArraySize, List.flatMap_cons] at *
      omega

theorem ptrBytes_length (buf : Nat) (strings : List String) :
    (ptrBytes buf strings).length = 4 * strings.length := by
  induction strings generalizing buf with
  | nil => rfl
  | cons s rest ih => simp [ptrBytes, le32, ih]; omega

theorem utf8Bytes_lt (s : String) : ∀ b ∈ utf8Bytes s, b < 256 := by
  intro b hb
  simp only [utf8Bytes, List.mem_map] at hb
  obtain ⟨u, _, rfl⟩ := hb
  exact u.toNat_lt

theorem argsBytes_lt (strings : List String) : ∀ b ∈ argsBytes strings, b < 256 := by
  intro b hb
  simp only [argsBytes, List.mem_flatMap, List.mem_append, List.mem_singleton] at hb
  obtain ⟨s, _, hb | rfl⟩ := hb
  · exact utf8Bytes_lt s b hb
  · omega

theorem setUint8_isOk (v : DataView) (off val : Nat) (h : off < v.bytes.length) :
    ∃ v', v.setUint8 off val = .ok v' := by
  unfold DataView.setUint8
  split <;> simp_all

theorem setUint8_bound {v v' : DataView} {off val : Nat}
    (h : v.setUint8 off val = .ok v') : off < v.bytes.length := by
  unfold DataView.setUint8 at h
  split at h
  · assumption
  · cases h

theorem setUint8_spec {v v' : DataView} {off val : Nat}
    (h : v.setUint8 off val = .ok v') :
    v'.bytes.length = v.bytes.length ∧
    v'.bytes[off]? = some (val % 256) ∧
    ∀ j, j ≠ off → v'.bytes[j]? = v.bytes[j]? := by
  unfold DataView.setUint8 at h
  split at h
  · cases h
    refine ⟨by simp, ?_, ?_⟩
    · simpa using List.getElem?_set_self ‹off < v.bytes.length›
    · intro j hj
      simpa using List.getElem?_set_ne (Ne.symm hj)
  · cases h

theorem writeBytes_ok (v : DataView) (bs : List Nat) (off : Nat)
    (h : off + bs.length ≤ v.bytes.length) :
    ∃ v', v.writeBytes bs off = .ok v' := by
  induction bs generalizing v off with
  | nil => exact ⟨v, rfl⟩
  | cons b rest ih =>
      obtain ⟨v1, h1⟩ := setUint8_isOk v off b
        (by simp only [List.length_cons] at h; omega)
      obtain ⟨hl, _, _⟩ := setUint8_spec h1
      obtain ⟨v', h'⟩ := ih v1 (off + 1)
        (by simp only [List.length_cons] at h; omega)
      refine ⟨v', ?_⟩
      show (v.setUint8 off b).bind (fun v1 => v1.writeBytes rest (off + 1)) = .ok v'
      rw [h1]
      exact h'

theorem writeBytes_spec {v v' : DataView} {bs : List Nat} {off : Nat}
    (h : v.writeBytes bs off = .ok v') :
    v'.bytes.length = v.bytes.length ∧
    (∀ i, (hi : i < bs.length) → v'.bytes[off + i]? = some (bs[i] % 256)) ∧
    ∀ j, j < off ∨ off + bs.length ≤ j → v'.bytes[j]? = v.bytes[j]? := by
  induction bs generalizing v off with
  | nil =>
      cases h
      exact ⟨rfl, fun i hi => absurd hi (by simp), fun j _ => rfl⟩
  | cons b rest ih =>
      have h' : (v.setUint8 off b).bind (fun v1 => v1.writeBytes rest (off + 1)) = .ok v' := h
      cases h1 : v.setUint8 off b with
      | error e => rw [h1] at h'; cases h'
      | ok v1 =>
          rw [h1] at h'
          replace h' : v1.writeBytes rest (off + 1) = .ok v' := h'
          obtain ⟨hl1, hat1, hfr1⟩ := setUint8_spec h1
          obtain ⟨hl2, hc2, hfr2⟩ := ih h'
          refine ⟨by omega, ?_, ?_⟩
          · intro i hi
            match i with
            | 0 =>
                rw [Nat.add_zero, hfr2 off (by omega), hat1]
                rfl
            | i + 1 =>
                have := hc2 i (by simpa using hi)
                rw [show off + (i + 1) = off + 1 + i by omega, this]
                rfl
          · intro j hj
            simp only [List.length_cons] at hj
            rw [hfr2 j (by omega), hfr1 j (by omega)]

theorem setUint32_isOk (v : DataView) (off val : Nat) (h : off + 4 ≤ v.bytes.length) :
    ∃ v', v.setUint32 off val = .ok v' := by
  unfold DataView.setUint32
  rw [if_pos h]
  exact writeBytes_ok v (le32 val) off (by simpa [le32] using h)

theorem setUint32_bound {v v' : DataView} {off val : Nat}
    (h : v.setUint32 off val = .ok v') : off + 4 ≤ v.bytes.length := by
  unfold DataView.setUint32 at h
  split at h
  · assumption
  · cases h

theorem le32_lt (val : Nat) : ∀ b ∈ le32 val, b < 256 := by
  intro b hb
  simp [le32] at hb
  rcases hb with rfl | rfl | rfl | rfl <;> omega

theorem setUint32_spec {v v' : DataView} {off val : Nat}
    (h : v.setUint32 off val = .ok v') :
    v'.bytes.length = v.bytes.length ∧
    (∀ k, (hk : k < 4) → v'.bytes[off + k]? = (le32 val)[k]?) ∧
    ∀ j, j < off ∨ off + 4 ≤ j → v'.bytes[j]? = v.bytes[j]? := by
  unfold DataView.setUint32 at h
  split at h
  · obtain ⟨hl, hc, hfr⟩ := writeBytes_spec h
    refine ⟨hl, ?_, fun j hj => hfr j (by simpa [le32] using hj)⟩
    intro k hk
    have hk' : k < (le32 val).length := by simpa [le32] using hk
    rw [hc k hk', List.getElem?_eq_getElem hk',
      Nat.mod_eq_of_lt (le32_lt val _ (List.getElem_mem hk'))]
  · cases h

theorem stringArraySize_cons (s : String) (rest : List String) :
    (stringArraySize (s :: rest)).bufferSize
      = ((utf8Bytes s).length + 1) + (stringArraySize rest).bufferSize := by
  simp [stringArraySize]

theorem argsBytes_cons (s : String) (rest : List String) :
    argsBytes (s :: rest) = (utf8Bytes s ++ [0]) ++ argsBytes rest := by
  simp [argsBytes]

theorem writeBytes_bound {v v' : DataView} {bs : List Nat} {off : Nat}
    (h : v.writeBytes bs off = .ok v') (hne : bs ≠ []) :
    off + bs.length ≤ v.bytes.length := by
  induction bs generalizing v off with
  | nil => exact absurd rfl hne
  | cons b rest ih =>
      have h' : (v.setUint8 off b).bind (fun v1 => v1.writeBytes rest (off + 1)) = .ok v' := h
      cases h1 : v.setUint8 off b with
      | error e => rw [h1] at h'; cases h'
      | ok v1 =>
          rw [h1] at h'
          replace h' : v1.writeBytes rest (off + 1) = .ok v' := h'
          have hb := setUint8_bound h1
          obtain ⟨hl, _, _⟩ := setUint8_spec h1
          by_cases hrest : rest = []
          · subst hrest
            simp only [List.length_cons, List.length_nil]
            omega
          · have := ih h' hrest
            simp only [List.length_cons]
            omega

theorem Except_ok_bind {ε α β : Type} (a : α) (f : α → Except ε β) :
    (Except.ok a : Except ε α).bind f = f a := rfl

theorem Except_error_bind {ε α β : Type} (e : ε) (f : α → Except ε β) :
    (Except.error e : Except ε α).bind f = .error e := rfl

theorem writeStringArray_cons_eq (v : DataView) (s : String) (rest : List String)
    (iovs buf : Nat) :
    writeStringArray v (s :: rest) iovs buf
      = (v.setUint32 iovs buf).bind (fun v1 =>
          (v1.writeBytes (utf8Bytes s ++ [0]) buf).bind (fun v2 =>
            writeStringArray v2 rest (iovs + 4) (buf + (utf8Bytes s ++ [0]).length))) := rfl

theorem writeStringArray_cons_ok {v v' : DataView} {s : String} {rest : List String}
    {iovs buf : Nat} (h : writeStringArray v (s :: rest) iovs buf = .ok v') :
    ∃ v1 v2, v.setUint32 iovs buf = .ok v1 ∧
      v1.writeBytes (utf8Bytes s ++ [0]) buf = .ok v2 ∧
      writeStringArray v2 rest (iovs + 4) (buf + (utf8Bytes s ++ [0]).length) = .ok v' := by
  rw [writeStringArray_cons_eq] at h
  cases hv1 : v.setUint32 iovs buf with
  | error e => rw [hv1, Except_error_bind] at h; cases h
  | ok v1 =>
      rw [hv1, Except_ok_bind] at h
      cases hv2 : v1.writeBytes (utf8Bytes s ++ [0]) buf with
      | error e => rw [hv2, Except_error_bind] at h; cases h
      | ok v2 =>
          rw [hv2, Except_ok_bind] at h
          exact ⟨v1, v2, rfl, hv2, h⟩

theorem writeStringArray_ok (v : DataView) (strings : List String) (iovs buf : Nat)
    (h1 : iovs + 4 * strings.length ≤ v.bytes.length)
    (h2 : buf + (stringArraySize strings).bufferSize ≤ v.bytes.length) :
    ∃ v', writeStringArray v strings iovs buf = .ok v' := by
  induction strings generalizing v iovs buf with
  | nil => exact ⟨v, rfl⟩
  | cons s rest ih =>
      have e1 : (utf8Bytes s ++ [0]).length = (utf8Bytes s).length + 1 := by simp
      have hlen := stringArraySize_cons s rest
      simp only [List.length_cons] at h1
      obtain ⟨v1, hv1⟩ := setUint32_isOk v iovs buf (by omega)
      obtain ⟨hL1, _, _⟩ := setUint32_spec hv1
      obtain ⟨v2, hv2⟩ := writeBytes_ok v1 (utf8Bytes s ++ [0]) buf (by omega)
      obtain ⟨hL2, _, _⟩ := writeBytes_spec hv2
      obtain ⟨v', hv'⟩ := ih v2 (iovs + 4) (buf + (utf8Bytes s ++ [0]).length)
        (by omega) (by omega)
      refine ⟨v', ?_⟩
      rw [writeStringArray_cons_eq, hv1, Except_ok_bind, hv2, Except_ok_bind]
      exact hv'

theorem writeStringArray_spec {v v' : DataView} {strings : List String} {iovs buf : Nat}
    (h : writeStringArray v strings iovs buf = .ok v') :
    v'.bytes.length = v.bytes.length ∧
    ∀ j, (j < iovs ∨ iovs + 4 * strings.length ≤ j) →
      (j < buf ∨ buf + (stringArraySize strings).bufferSize ≤ j) →
      v'.bytes[j]? = v.bytes[j]? := by
  induction strings generalizing v iovs buf with
  | nil => cases h; exact ⟨rfl, fun _ _ _ => rfl⟩
  | cons s rest ih =>
      obtain ⟨v1, v2, hv1, hv2, h'⟩ := writeStringArray_cons_ok h
      obtain ⟨hL1, hC1, hF1⟩ := setUint32_spec hv1
      obtain ⟨hL2, hC2, hF2⟩ := writeBytes_spec hv2
      obtain ⟨hL3, hF3⟩ := ih h'
      have e1 : (utf8Bytes s ++ [0]).length = (utf8Bytes s).length + 1 := by simp
      have hlen := stringArraySize_cons s rest
      refine ⟨by omega, ?_⟩
      intro j hj1 hj2
      simp only [List.length_cons] at hj1
      rw [hF3 j (by omega) (by omega), hF2 j (by omega), hF1 j (by omega)]

theorem writeStringArray_bounds {v v' : DataView} {strings : List String} {iovs buf : Nat}
    (h : writeStringArray v strings iovs buf = .ok v') (hne : strings ≠ []) :
    iovs + 4 * strings.length ≤ v.bytes.length ∧
    buf + (stringArraySize strings).bufferSize ≤ v.bytes.length := by
  induction strings generalizing v iovs buf with
  | nil => exact absurd rfl hne
  | cons s rest ih =>
      obtain ⟨v1, v2, hv1, hv2, h'⟩ := writeStringArray_cons_ok h
      obtain ⟨hL1, _, _⟩ := setUint32_spec hv1
      obtain ⟨hL2, _, _⟩ := writeBytes_spec hv2
      have hb1 := setUint32_bound hv1
      have hb2 := writeBytes_bound hv2 (by simp)
      have e1 : (utf8Bytes s ++ [0]).length = (utf8Bytes s).length + 1 := by simp
      have hlen := stringArraySize_cons s rest
      simp only [List.length_cons]
      by_cases hrest : rest = []
      · subst hrest
        have h0 : (stringArraySize ([] : List String)).bufferSize = 0 := rfl
        simp only [List.length_nil]
        omega
      · obtain ⟨hb3, hb4⟩ := ih h' hrest
        omega

theorem writeStringArray_content {v v' : DataView} {strings : List String} {iovs buf : Nat}
    (h : writeStringArray v strings iovs buf = .ok v')
    (hd : iovs + 4 * strings.length ≤ buf ∨
      buf + (stringArraySize strings).bufferSize ≤ iovs) :
    (∀ i, i < (stringArraySize strings).bufferSize →
      v'.bytes[buf + i]? = (argsBytes strings)[i]?) ∧
    ∀ k, k < 4 * strings.length → v'.bytes[iovs + k]? = (ptrBytes buf strings)[k]? := by
  induction strings generalizing v iovs buf with
  | nil =>
      refine ⟨fun i hi => ?_, fun k hk => ?_⟩
      · simp [stringArraySize] at hi
      · simp at hk
  | cons s rest ih =>
      obtain ⟨v1, v2, hv1, hv2, h'⟩ := writeStringArray_cons_ok h
      obtain ⟨hL1, hC1, hF1⟩ := setUint32_spec hv1
      obtain ⟨hL2, hC2, hF2⟩ := writeBytes_spec hv2
      obtain ⟨_, hF3⟩ := writeStringArray_spec h'
      have e1 : (utf8Bytes s ++ [0]).length = (utf8Bytes s).length + 1 := by simp
      have hlen := stringArraySize_cons s rest
      simp only [List.length_cons] at hd
      have hd' : (iovs + 4) + 4 * rest.length ≤ buf + (utf8Bytes s ++ [0]).length ∨
          (buf + (utf8Bytes s ++ [0]).length) + (stringArraySize rest).bufferSize ≤ iovs + 4 := by
        omega
      obtain ⟨ihB, ihP⟩ := ih h' hd'
      have hbs : ∀ b ∈ utf8Bytes s ++ [0], b < 256 := by
        intro b hb
        rcases List.mem_append.mp hb with hb | hb
        · exact utf8Bytes_lt s b hb
        · simp at hb; omega
      constructor
      · intro i hi
        rw [argsBytes_cons]
        rcases Nat.lt_or_ge i ((utf8Bytes s ++ [0]).length) with hi1 | hi1
        · rw [hF3 (buf + i) (by omega) (by omega), hC2 i hi1,
            List.getElem?_append_left hi1, List.getElem?_eq_getElem hi1,
            Nat.mod_eq_of_lt (hbs _ (List.getElem_mem hi1))]
        · have e2 : buf + i
              = buf + (utf8Bytes s ++ [0]).length + (i - (utf8Bytes s ++ [0]).length) := by
            omega
          have hrem := ihB (i - (utf8Bytes s ++ [0]).length) (by omega)
          rw [e2, hrem, List.getElem?_append_right hi1]
      · intro k hk
        have hptr : ptrBytes buf (s :: rest)
            = le32 buf ++ ptrBytes (buf + ((utf8Bytes s).length + 1)) rest := rfl
        rw [hptr]
        rcases Nat.lt_or_ge k 4 with hk1 | hk1
        · rw [hF3 (iovs + k) (by omega) (by omega), hF2 (iovs + k) (by omega),
            hC1 k hk1, List.getElem?_append_left (by simp [le32]; omega)]
        · have e2 : iovs + k = (iovs + 4) + (k - 4) := by omega
          have e3 : buf + ((utf8Bytes s).length + 1) = buf + (utf8Bytes s ++ [0]).length := by
            omega
          have hrem := ihP (k - 4) (by simp only [List.length_cons] at hk; omega)
          rw [e2, e3, hrem, List.getElem?_append_right (by simp [le32]; omega)]
          simp [le32]

theorem Except_bind_ok_m {ε α β : Type} (a : α) (f : α → Except ε β) :
    ((Except.ok a : Except ε α) >>= f) = f a := rfl

theorem Except_bind_error_m {ε α β : Type} (e : ε) (f : α → Except ε β) :
    ((Except.error e : Except ε α) >>= f) = Except.error e := rfl

theorem resolveAll_lookup {fs : MemFS} {p : String} {b : List Nat}
    (h : lookupFS fs p = some (.deferred b)) :
    lookupCache (resolveAll fs) p = some b := by
  induction fs with
  | nil => simp [lookupFS] at h
  | cons qc rest ih =>
      obtain ⟨q, c⟩ := qc
      by_cases hq : q = p
      · subst hq
        simp [lookupFS] at h
        subst h
        simp [resolveAll, lookupCache]
      · simp only [lookupFS, if_neg hq] at h
        cases c with
        | inline b2 => simpa [resolveAll, lookupCache, hq] using ih h
        | deferred b2 => simpa [resolveAll, lookupCache, hq] using ih h

theorem allocFD_get (d : FSDesc) (table : List (Option FSDesc)) :
    ((allocFD d table).2)[(allocFD d table).1]? = some (some d) := by
  induction table with
  | nil => simp [allocFD]
  | cons o rest ih =>
      cases o with
      | none => simp [allocFD]
      | some x => simpa [allocFD] using ih

theorem openFile_deferred (f : MemFS) (cch : Cache) (tbl : List (Option FSDesc))
    {p : String} {b : List Nat}
    (hfs : lookupFS f p = some (.deferred b))
    (hc : lookupCache cch p = some b) :
    openFile ⟨f, cch, tbl⟩ p
      = .ok ((allocFD ⟨p, 0, b⟩ tbl).1, ⟨f, cch, (allocFD ⟨p, 0, b⟩ tbl).2⟩) := by
  simp [openFile, hfs, resolveContent, hc, Except_bind_ok_m]

theorem readFD_full (f : MemFS) (cch : Cache) (tbl : List (Option FSDesc))
    {fd : Nat} {p : String} {b : List Nat}
    (h : tbl[fd]? = some (some ⟨p, 0, b⟩)) :
    readFD ⟨f, cch, tbl⟩ fd b.length
      = .ok (b, ⟨f, cch, tbl.set fd (some ⟨p, b.length, b⟩)⟩) := by
  simp [readFD, h]

theorem closeFD_ok (f : MemFS) (cch : Cache) (tbl : List (Option FSDesc))
    {fd : Nat} {d : FSDesc} (h : tbl[fd]? = some (some d)) :
    closeFD ⟨f, cch, tbl⟩ fd = .ok ⟨f, cch, tbl.set fd none⟩ := by
  simp [closeFD, h]

theorem readWholeFile_deferred (f : MemFS) (cch : Cache) (tbl : List (Option FSDesc))
    {p : String} {b : List Nat}
    (hfs : lookupFS f p = some (.deferred b))
    (hc : lookupCache cch p = some b) :
    ∃ t', readWholeFile ⟨f, cch, tbl⟩ p = .ok (b, ⟨f, cch, t'⟩) := by
  have hopen := openFile_deferred f cch tbl hfs hc
  have h1 : ((allocFD ⟨p, 0, b⟩ tbl).2)[(allocFD ⟨p, 0, b⟩ tbl).1]?
      = some (some ⟨p, 0, b⟩) := allocFD_get _ _
  have hfd : (allocFD ⟨p, 0, b⟩ tbl).1 < (allocFD ⟨p, 0, b⟩ tbl).2.length :=
    (List.getElem?_eq_some_iff.mp h1).1
  have hlen : fdLen ⟨f, cch, (allocFD ⟨p, 0, b⟩ tbl).2⟩ (allocFD ⟨p, 0, b⟩ tbl).1
      = b.length := by
    simp [fdLen, h1]
  have hread := readFD_full f cch (allocFD ⟨p, 0, b⟩ tbl).2 h1
  have h2 : (((allocFD ⟨p, 0, b⟩ tbl).2).set (allocFD ⟨p, 0, b⟩ tbl).1
        (some ⟨p, b.length, b⟩))[(allocFD ⟨p, 0, b⟩ tbl).1]?
      = some (some ⟨p, b.length, b⟩) := by
    simpa using List.getElem?_set_self (by simpa using hfd)
  have hclose := closeFD_ok f cch
    (((allocFD ⟨p, 0, b⟩ tbl).2).set (allocFD ⟨p, 0, b⟩ tbl).1 (some ⟨p, b.length, b⟩)) h2
  refine ⟨((allocFD ⟨p, 0, b⟩ tbl).2.set (allocFD ⟨p, 0, b⟩ tbl).1
    (some ⟨p, b.length, b⟩)).set (allocFD ⟨p, 0, b⟩ tbl).1 none, ?_⟩
  simp only [readWholeFile, hopen, Except_bind_ok_m, hlen, hread, hclose]

theorem readFilesSeq_deferred (f : MemFS) (cch : Cache) (tbl : List (Option FSDesc))
    (paths : List String) (bs : String → List Nat)
    (h : ∀ p ∈ paths, lookupFS f p = some (.deferred (bs p)) ∧
      lookupCache cch p = some (bs p)) :
    ∃ t', readFilesSeq ⟨f, cch, tbl⟩ paths = .ok (paths.map bs, ⟨f, cch, t'⟩) := by
  induction paths generalizing tbl with
  | nil => exact ⟨tbl, rfl⟩
  | cons p rest ih =>
      obtain ⟨hp1, hp2⟩ := h p (List.mem_cons_self p rest)
      obtain ⟨t1, h1⟩ := readWholeFile_deferred f cch tbl hp1 hp2
      obtain ⟨t2, h2⟩ := ih t1 (fun q hq => h q (List.mem_cons_of_mem p hq))
      refine ⟨t2, ?_⟩
      simp only [readFilesSeq, h1, Except_bind_ok_m, h2, List.map_cons]

theorem openFile_preserves {st st' : FSState} {fd : Nat} {p : String}
    (h : openFile st p = .ok (fd, st')) : st'.fs = st.fs ∧ st'.cache = st.cache := by
  cases hl : lookupFS st.fs p with
  | none => simp [openFile, hl] at h
  | some c =>
      simp only [openFile, hl] at h
      cases hr : resolveContent st.cache p c with
      | error e => rw [hr, Except_bind_error_m] at h; cases h
      | ok buf =>
          rw [hr, Except_bind_ok_m] at h
          simp only [Except.ok.injEq, Prod.mk.injEq] at h
          obtain ⟨h1, h2⟩ := h
          subst h2
          exact ⟨rfl, rfl⟩

theorem readFD_preserves {st st' : FSState} {fd n : Nat} {out : List Nat}
    (h : readFD st fd n = .ok (out, st')) : st'.fs = st.fs ∧ st'.cache = st.cache := by
  cases hl : st.table[fd]? with
  | none => simp [readFD, hl] at h
  | some o =>
      cases o with
      | none => simp [readFD, hl] at h
      | some d =>
          simp only [readFD, hl, Except.ok.injEq, Prod.mk.injEq] at h
          obtain ⟨h1, h2⟩ := h
          subst h2
          exact ⟨rfl, rfl⟩

theorem closeFD_preserves {st st' : FSState} {fd : Nat}
    (h : closeFD st fd = .ok st') : st'.fs = st.fs ∧ st'.cache = st.cache := by
  cases hl : st.table[fd]? with
  | none => simp [closeFD, hl] at h
  | some o =>
      cases o with
      | none => simp [closeFD, hl] at h
      | some d =>
          simp only [closeFD, hl, Except.ok.injEq] at h
          subst h
          exact ⟨rfl, rfl⟩

theorem openFile_notResolved {st : FSState} {p : String} {b : List Nat}
    (hfs : lookupFS st.fs p = some (.deferred b))
    (hc : lookupCache st.cache p = none) :
    openFile st p = .error .notResolved := by
  simp [openFile, hfs, resolveContent, hc, Except_bind_error_m]

theorem args_get_eq (args : List String) (view : DataView) (argv argvBuf : Nat) :
    (useArgs (some args)).args_get view argv argvBuf
      = (writeStringArray view args argv argvBuf).map (fun v => (WASI_ESUCCESS, v)) := rfl

theorem args_sizes_get_eq (args : List String) (view : DataView) (argc argvBufSize : Nat) :
    (useArgs (some args)).args_sizes_get view argc argvBufSize
      = ((view.setUint32 argc args.length) >>= (fun v1 =>
          (v1.setUint32 argvBufSize (stringArraySize args).bufferSize) >>= (fun v2 =>
            Except.ok (WASI_ESUCCESS, v2)))) := rfl

theorem args_get_ok {args : List String} {view : DataView} {argv argvBuf : Nat}
    {r : Nat × DataView}
    (h : (useArgs (some args)).args_get view argv argvBuf = .ok r) :
    writeStringArray view args argv argvBuf = .ok r.2 ∧ r.1 = WASI_ESUCCESS := by
  rw [args_get_eq] at h
  cases hw : writeStringArray view args argv argvBuf with
  | error e => rw [hw] at h; simp [Except.map] at h
  | ok v2 =>
      rw [hw] at h
      simp only [Except.map, Except.ok.injEq] at h
      subst h
      exact ⟨rfl, rfl⟩

theorem args_sizes_get_ok {args : List String} {view : DataView} {argc argvBufSize : Nat}
    {r : Nat × DataView}
    (h : (useArgs (some args)).args_sizes_get view argc argvBufSize = .ok r) :
    ∃ v1, view.setUint32 argc args.length = .ok v1 ∧
      v1.setUint32 argvBufSize (stringArraySize args).bufferSize = .ok r.2 ∧
      r.1 = WASI_ESUCCESS := by
  rw [args_sizes_get_eq] at h
  cases h1 : view.setUint32 argc args.length with
  | error e => rw [h1, Except_bind_error_m] at h; cases h
  | ok v1 =>
      rw [h1, Except_bind_ok_m] at h
      cases h2 : v1.setUint32 argvBufSize (stringArraySize args).bufferSize with
      | error e => rw [h2, Except_bind_error_m] at h; cases h
      | ok v2 =>
          rw [h2, Except_bind_ok_m] at h
          simp only [Except.ok.injEq] at h
          subst h
          exact ⟨v1, rfl, h2, rfl⟩

/-- C1: the claim asserts that every provider syscall returns an ABI
error-code constant rather than throwing, and in particular that an
out-of-bounds write attempted by args_get yields an out-of-bounds error
result code rather than an uncaught host exception.  This refutes it at
a concrete input: with a four-byte view, one argument string and the
buffer placed at offset four, args_get propagates the out-of-bounds
RangeError raised inside writeStringArray as a host-level exception and
never produces a result code. -/
theorem c1_counterexample :
    (useArgs (some ["a"])).args_get ⟨[0, 0, 0, 0]⟩ 0 4
      = .error .rangeError := by rfl

/-- C1 (amended): args_get returns WASI_ESUCCESS whenever the argument
marshalling stays inside the view bounds, args_sizes_get reports
WASI_ESUCCESS whenever it returns at all, and proc_raise returns
WASI_ESUCCESS; proc_exit never returns a result code and instead raises
the distinguished WASIProcExit signal carrying its code; but when the
marshalling write runs out of bounds, args_get propagates the
out-of-bounds RangeError as a host-level exception instead of returning
an error result code. -/
theorem c1_provider_error_codes :
    (∀ (view : DataView) (args : List String) (argv argvBuf : Nat) (v' : DataView),
        writeStringArray view args argv argvBuf = .ok v' →
        (useArgs (some args)).args_get view argv argvBuf = .ok (WASI_ESUCCESS, v')) ∧
    (∀ (view : DataView) (args : List String) (argv argvBuf : Nat),
        writeStringArray view args argv argvBuf = .error .rangeError →
        (useArgs (some args)).args_get view argv argvBuf = .error .rangeError) ∧
    (∀ (args : List String) (view : DataView) (argc argvBufSize : Nat) (r : Nat × DataView),
        (useArgs (some args)).args_sizes_get view argc argvBufSize = .ok r →
        r.1 = WASI_ESUCCESS) ∧
    (∀ sig : Nat, useProc.proc_raise sig = .ok WASI_ESUCCESS) ∧
    (∀ code : Int, useProc.proc_exit code = .error (.procExit code)) ∧
    (∀ (code : Int) (n : Nat), useProc.proc_exit code ≠ .ok n) := by
  refine ⟨?_, ?_, ?_, fun _ => rfl, fun _ => rfl, fun _ _ h => by cases h⟩
  · intro view args argv argvBuf v' h
    rw [args_get_eq, h]
    rfl
  · intro view args argv argvBuf h
    rw [args_get_eq, h]
    rfl
  · intro args view argc argvBufSize r h
    obtain ⟨v1, _, _, h3⟩ := args_sizes_get_ok h
    exact h3

/-- Witness for the amended C1: a concrete in-bounds call returns
success with the marshalled view, and a concrete out-of-bounds call
propagates the RangeError. -/
theorem c1_witness :
    (useArgs (some ["a"])).args_get ⟨[0, 0, 0, 0, 0, 0, 0, 0]⟩ 0 4
        = .ok (WASI_ESUCCESS, ⟨[4, 0, 0, 0, 97, 0, 0, 0]⟩) ∧
    (useArgs (some ["a"])).args_get ⟨[9, 9, 9, 9]⟩ 0 4
        = .error .rangeError ∧
    useProc.proc_exit 3 = .error (.procExit 3) :=
  ⟨c1_provider_error_codes.1 ⟨[0, 0, 0, 0, 0, 0, 0, 0]⟩ ["a"] 0 4
      ⟨[4, 0, 0, 0, 97, 0, 0, 0]⟩ (by rfl),
   c1_provider_error_codes.2.1 ⟨[9, 9, 9, 9]⟩ ["a"] 0 4 (by rfl),
   c1_provider_error_codes.2.2.2.2.1 3⟩

/-- C4: proc_exit raises the distinguished WASIProcExit signal carrying
exactly the given code and never returns a result code to the guest;
the controller interprets the signal as normal guest termination,
reported through the exitCode field of the eval result with no error
and no host fault. -/
theorem c4_proc_exit_signal :
    (∀ code : Int, useProc.proc_exit code = .error (.procExit code) ∧
      ∀ n : Nat, useProc.proc_exit code ≠ .ok n) ∧
    (∀ (g : GuestProgram) (st : Controller) (code : String) (args : List String)
        (c : Int) (out errOut : List String),
        st.lifecycle = .Ready →
        g (utf8Bytes code) args = .exited c out errOut →
        st.eval g code args = .ok
          ({ success := decide (c = 0), exitCode := c, error := none },
           { st with bufferedStdout := st.bufferedStdout ++ out,
                     bufferedStderr := st.bufferedStderr ++ errOut })) := by
  refine ⟨fun code => ⟨rfl, fun n h => by cases h⟩, ?_⟩
  intro g st code args c out errOut hL hg
  simp [Controller.eval, hL, evalGuest, hg]

/-- Witness for C4: a concrete guest that exits with code 7 makes eval
on a fresh Ready session return exitCode 7 with no error. -/
theorem c4_witness :
    readyState.eval gExit7 "exit 7" []
      = .ok ({ success := false, exitCode := 7, error := none }, readyState) :=
  c4_proc_exit_signal.2 gExit7 readyState "exit 7" [] 7 [] [] rfl rfl

/-- C5: the sizes reported by args_sizes_get, namely count equal to the
number of argument strings and bufferSize the total trailing-nul
byte length per stringArraySize, coincide exactly with what args_get
writes: the filled view carries the full nul-terminated string image of
bufferSize bytes at the buffer address and the full pointer array of
4 times count bytes at the pointer address, nothing outside those two
regions changes, and a successful nonempty fill requires exactly those
extents to fit.  Both calls derive the sizes from the same captured
argument vector, so the fill re-derives the query sizes identically. -/
theorem c5_sizes_exact :
    (∀ args : List String, (stringArraySize args).count = args.length) ∧
    (∀ (args : List String) (view : DataView) (argc bufp : Nat) (r : Nat × DataView),
        (useArgs (some args)).args_sizes_get view argc bufp = .ok r →
        (argc + 4 ≤ bufp ∨ bufp + 4 ≤ argc) →
        r.2.bytes.length = view.bytes.length ∧
        (∀ k, k < 4 → r.2.bytes[argc + k]? = (le32 args.length)[k]?) ∧
        (∀ k, k < 4 → r.2.bytes[bufp + k]? = (le32 (stringArraySize args).bufferSize)[k]?)) ∧
    (∀ (args : List String) (view : DataView) (argv argvBuf : Nat) (r : Nat × DataView),
        (useArgs (some args)).args_get view argv argvBuf = .ok r →
        (argv + 4 * (stringArraySize args).count ≤ argvBuf ∨
          argvBuf + (stringArraySize args).bufferSize ≤ argv) →
        (argsBytes args).length = (stringArraySize args).bufferSize ∧
        (ptrBytes argvBuf args).length = 4 * (stringArraySize args).count ∧
        (∀ i, i < (stringArraySize args).bufferSize →
          r.2.bytes[argvBuf + i]? = (argsBytes args)[i]?) ∧
        (∀ k, k < 4 * (stringArraySize args).count →
          r.2.bytes[argv + k]? = (ptrBytes argvBuf args)[k]?) ∧
        (∀ j, (j < argv ∨ argv + 4 * (stringArraySize args).count ≤ j) →
          (j < argvBuf ∨ argvBuf + (stringArraySize args).bufferSize ≤ j) →
          r.2.bytes[j]? = view.bytes[j]?) ∧
        (args ≠ [] →
          argv + 4 * (stringArraySize args).count ≤ view.bytes.length ∧
          argvBuf + (stringArraySize args).bufferSize ≤ view.bytes.length)) := by
  refine ⟨fun _ => rfl, ?_, ?_⟩
  · intro args view argc bufp r h hdisj
    obtain ⟨v1, h1, h2, _⟩ := args_sizes_get_ok h
    obtain ⟨hL1, hC1, hF1⟩ := setUint32_spec h1
    obtain ⟨hL2, hC2, hF2⟩ := setUint32_spec h2
    refine ⟨by omega, ?_, hC2⟩
    intro k hk
    rw [hF2 (argc + k) (by omega), hC1 k hk]
  · intro args view argv argvBuf r h hdisj
    obtain ⟨hw, _⟩ := args_get_ok h
    have hcount : (stringArraySize args).count = args.length := rfl
    rw [hcount] at hdisj ⊢
    obtain ⟨hbuf, hptr⟩ := writeStringArray_content hw hdisj
    obtain ⟨hL, hF⟩ := writeStringArray_spec hw
    refine ⟨argsBytes_length args, ptrBytes_length argvBuf args, hbuf, hptr, hF, ?_⟩
    intro hne
    exact writeStringArray_bounds hw hne

/-- Witness for C5: with the argument vector of the strings a and bc,
the size query reports count 2 and bufferSize 5, and the fill call lays
down exactly those two pointers and five buffer bytes. -/
theorem c5_witness :
    (useArgs (some ["a", "bc"])).args_sizes_get ⟨[9, 9, 9, 9, 9, 9, 9, 9]⟩ 0 4
        = .ok (WASI_ESUCCESS, ⟨[2, 0, 0, 0, 5, 0, 0, 0]⟩) ∧
    (⟨[2, 0, 0, 0, 5, 0, 0, 0]⟩ : DataView).bytes[0 + 0]?
        = (le32 (["a", "bc"] : List String).length)[0]? ∧
    (useArgs (some ["a", "bc"])).args_get
        ⟨[9, 9, 9, 9, 9, 9, 9, 9, 9, 9, 9, 9, 9, 9, 9, 9]⟩ 0 8
      = .ok (WASI_ESUCCESS, ⟨[8, 0, 0, 0, 10, 0, 0, 0, 97, 0, 98, 99, 0, 9, 9, 9]⟩) ∧
    (⟨[8, 0, 0, 0, 10, 0, 0, 0, 97, 0, 98, 99, 0, 9, 9, 9]⟩ : DataView).bytes[8 + 0]?
        = (argsBytes ["a", "bc"])[0]? :=
  ⟨by rfl,
   (c5_sizes_exact.2.1 ["a", "bc"] ⟨[9, 9, 9, 9, 9, 9, 9, 9]⟩ 0 4
      (WASI_ESUCCESS, ⟨[2, 0, 0, 0, 5, 0, 0, 0]⟩) (by rfl) (by omega)).2.1 0 (by omega),
   by rfl,
   (c5_sizes_exact.2.2 ["a", "bc"] ⟨[9, 9, 9, 9, 9, 9, 9, 9, 9, 9, 9, 9, 9, 9, 9, 9]⟩ 0 8
      (WASI_ESUCCESS, ⟨[8, 0, 0, 0, 10, 0, 0, 0, 97, 0, 98, 99, 0, 9, 9, 9]⟩) (by rfl)
      (by decide)).2.2.1 0 (by decide)⟩

/-- C10: when the configuration omits the args field, useArgs captures
the empty argument vector, so the provider is literally the one an
explicitly empty vector produces: args_sizes_get stores count zero and
buffer size zero and returns WASI_ESUCCESS, and args_get writes nothing
at all into guest memory, returning WASI_ESUCCESS with the view
untouched. -/
theorem c10_missing_args_empty :
    useArgs none = useArgs (some []) ∧
    (∀ (view : DataView) (argv argvBuf : Nat),
        (useArgs none).args_get view argv argvBuf = .ok (WASI_ESUCCESS, view)) ∧
    (∀ (view : DataView) (argc bufp : Nat) (r : Nat × DataView),
        (useArgs none).args_sizes_get view argc bufp = .ok r →
        r.1 = WASI_ESUCCESS ∧
        r.2.bytes.length = view.bytes.length ∧
        (∀ k, k < 4 → r.2.bytes[bufp + k]? = (le32 0)[k]?) ∧
        ((argc + 4 ≤ bufp ∨ bufp + 4 ≤ argc) →
          ∀ k, k < 4 → r.2.bytes[argc + k]? = (le32 0)[k]?)) ∧
    (∀ (view : DataView) (argc bufp : Nat),
        argc + 4 ≤ view.bytes.length → bufp + 4 ≤ view.bytes.length →
        ∃ r, (useArgs none).args_sizes_get view argc bufp = .ok r) := by
  refine ⟨rfl, fun _ _ _ => rfl, ?_, ?_⟩
  · intro view argc bufp r h
    have h' : (useArgs (some [])).args_sizes_get view argc bufp = .ok r := h
    obtain ⟨v1, h1, h2, h3⟩ := args_sizes_get_ok h'
    obtain ⟨hL1, hC1, hF1⟩ := setUint32_spec h1
    obtain ⟨hL2, hC2, hF2⟩ := setUint32_spec h2
    refine ⟨h3, by omega, hC2, ?_⟩
    intro hdisj k hk
    rw [hF2 (argc + k) (by omega)]
    simpa using hC1 k hk
  · intro view argc bufp h1 h2
    obtain ⟨v1, hv1⟩ := setUint32_isOk view argc ([] : List String).length h1
    obtain ⟨hL1, _, _⟩ := setUint32_spec hv1
    obtain ⟨v2, hv2⟩ := setUint32_isOk v1 bufp (stringArraySize []).bufferSize (by omega)
    refine ⟨(WASI_ESUCCESS, v2), ?_⟩
    show (useArgs (some [])).args_sizes_get view argc bufp = Except.ok (WASI_ESUCCESS, v2)
    rw [args_sizes_get_eq, hv1, Except_bind_ok_m, hv2, Except_bind_ok_m]

/-- Witness for C10: on a concrete eight-byte view the omitted-args
provider answers the size query with count zero and buffer size zero
and leaves the view untouched on the fill call. -/
theorem c10_witness :
    useArgs none = useArgs (some []) ∧
    (useArgs none).args_get ⟨[7, 7, 7, 7, 7, 7, 7, 7]⟩ 0 4
        = .ok (WASI_ESUCCESS, ⟨[7, 7, 7, 7, 7, 7, 7, 7]⟩) ∧
    (⟨[0, 0, 0, 0, 0, 0, 0, 0]⟩ : DataView).bytes[4 + 0]? = (le32 0)[0]? ∧
    (⟨[0, 0, 0, 0, 0, 0, 0, 0]⟩ : DataView).bytes[0 + 0]? = (le32 0)[0]? :=
  ⟨c10_missing_args_empty.1,
   c10_missing_args_empty.2.1 ⟨[7, 7, 7, 7, 7, 7, 7, 7]⟩ 0 4,
   (c10_missing_args_empty.2.2.1 ⟨[7, 7, 7, 7, 7, 7, 7, 7]⟩ 0 4
      (WASI_ESUCCESS, ⟨[0, 0, 0, 0, 0, 0, 0, 0]⟩) (by rfl)).2.2.1 0 (by omega),
   (c10_missing_args_empty.2.2.1 ⟨[7, 7, 7, 7, 7, 7, 7, 7]⟩ 0 4
      (WASI_ESUCCESS, ⟨[0, 0, 0, 0, 0, 0, 0, 0]⟩) (by rfl)).2.2.2 (by omega) 0 (by omega)⟩

/-- C3: a guest-level script error raised by the guest error primitive
makes eval return success false carrying the error text, captured as
well into the session lastError, with no host-level fault (eval still
returns normally); the variable bindings established before the failing
eval stay readable with their prior values, and getLastError on the
resulting session returns the captured text. -/
theorem c3_script_error_captured :
    ∀ (g : GuestProgram) (st : Controller) (code : String) (args : List String)
      (msg : String) (out errOut : List String),
      st.lifecycle = .Ready →
      g (utf8Bytes code) args = .scriptError msg out errOut →
      st.eval g code args = .ok
        ({ success := false, exitCode := 1, error := some msg },
         { st with lastError := msg,
                   bufferedStdout := st.bufferedStdout ++ out,
                   bufferedStderr := st.bufferedStderr ++ errOut }) ∧
      (∀ n, getVar
          ({ st with lastError := msg,
                     bufferedStdout := st.bufferedStdout ++ out,
                     bufferedStderr := st.bufferedStderr ++ errOut } : Controller).vars n
          = getVar st.vars n) ∧
      ({ st with lastError := msg,
                 bufferedStdout := st.bufferedStdout ++ out,
                 bufferedStderr := st.bufferedStderr ++ errOut } : Controller).getLastError
          = .ok (msg,
            { st with lastError := msg,
                      bufferedStdout := st.bufferedStdout ++ out,
                      bufferedStderr := st.bufferedStderr ++ errOut }) := by
  intro g st code args msg out errOut hL hg
  refine ⟨?_, fun n => rfl, ?_⟩
  · simp [Controller.eval, hL, evalGuest, hg]
  · simp [Controller.getLastError, hL]

/-- Witness for C3: a session holding the binding x to 42 evaluates a
guest program that dies with X; the result is success false with error
X and the binding x still reads 42. -/
theorem c3_witness :
    ({ readyState with vars := [("x", "42")] } : Controller).eval gDieX "die" []
        = .ok ({ success := false, exitCode := 1, error := some "X" },
          { readyState with vars := [("x", "42")], lastError := "X" }) ∧
    getVar [("x", "42")] "x" = some "42" :=
  ⟨(c3_script_error_captured gDieX { readyState with vars := [("x", "42")] }
      "die" [] "X" [] [] rfl rfl).1, rfl⟩

/-- C6: once dispose or shutdown has run, every subsequent operation
fails with the disposed-instance error; none silently no-ops, and the
Disposed state is terminal: a failing operation yields no successor
state at all, dispose moves any session to Disposed, and shutdown is
exactly dispose. -/
theorem c6_disposed_terminal :
    (∀ (g : GuestProgram) (st : Controller) (op : Op),
        st.lifecycle = .Disposed → st.applyOp g op = .error .disposed) ∧
    (∀ st : Controller, st.dispose.lifecycle = .Disposed) ∧
    (∀ st : Controller, st.shutdown = st.dispose) := by
  refine ⟨?_, fun _ => rfl, fun _ => rfl⟩
  intro g st op hD
  cases op <;>
    simp [Controller.applyOp, Controller.eval, Controller.runFile,
      Controller.getVariable, Controller.setVariable, Controller.flush,
      Controller.reset, Controller.getLastError, Controller.clearError, hD,
      Except.map]

/-- Witness for C6: evaluating on a disposed session fails with the
disposed-instance error. -/
theorem c6_witness :
    disposedState.applyOp gQuiet (.evalOp "$y = 10" []) = .error .disposed :=
  c6_disposed_terminal.1 gQuiet disposedState (.evalOp "$y = 10" []) rfl

/-- C7: no controller operation other than flush delivers anything to
the stdout or stderr sinks; flush hands over the entire buffered output
in write order and clears the buffers; and in particular two evals that
write a and then b followed by one flush deliver exactly a then b. -/
theorem c7_flush_ordering :
    (∀ (g : GuestProgram) (st st' : Controller) (op : Op),
        op ≠ .flushOp → st.applyOp g op = .ok st' →
        st'.deliveredStdout = st.deliveredStdout ∧
        st'.deliveredStderr = st.deliveredStderr) ∧
    (∀ st : Controller, st.lifecycle = .Ready →
        st.flush = .ok { st with
          deliveredStdout := st.deliveredStdout ++ st.bufferedStdout,
          deliveredStderr := st.deliveredStderr ++ st.bufferedStderr,
          bufferedStdout := [], bufferedStderr := [] }) ∧
    (∀ (g : GuestProgram) (st : Controller) (c1 c2 : String) (args1 args2 : List String)
        (u1 u2 : List (String × String)) (r1 r2 : EvalResult) (st1 st2 st3 : Controller),
        st.lifecycle = .Ready → st.bufferedStdout = [] → st.bufferedStderr = [] →
        g (utf8Bytes c1) args1 = .ok u1 ["a"] [] →
        g (utf8Bytes c2) args2 = .ok u2 ["b"] [] →
        st.eval g c1 args1 = .ok (r1, st1) →
        st1.eval g c2 args2 = .ok (r2, st2) →
        st2.flush = .ok st3 →
        st3.deliveredStdout = st.deliveredStdout ++ ["a", "b"] ∧
        st3.bufferedStdout = []) := by
  refine ⟨?_, ?_, ?_⟩
  · intro g st st' op hop h
    cases op with
    | flushOp => exact absurd rfl hop
    | evalOp c a =>
        by_cases hL : st.lifecycle = .Disposed
        · simp [Controller.applyOp, Controller.eval, hL, Except.map] at h
        · simp only [Controller.applyOp, Controller.eval, if_neg hL, Except.map,
            Except.ok.injEq] at h
          subst h
          cases hg : g (utf8Bytes c) a <;> simp [evalGuest, hg]
    | runFileOp p a =>
        by_cases hL : st.lifecycle = .Disposed
        · simp [Controller.applyOp, Controller.runFile, hL, Except.map] at h
        · cases hlk : lookupFS st.fs p with
          | none =>
              simp only [Controller.applyOp, Controller.runFile, if_neg hL, hlk,
                Except.map, Except.ok.injEq] at h
              subst h
              exact ⟨rfl, rfl⟩
          | some c =>
              simp only [Controller.applyOp, Controller.runFile, if_neg hL, hlk,
                Except.map, Except.ok.injEq] at h
              subst h
              cases hg : g (resolvedBytes c) a <;> simp [evalGuest, hg]
    | getVarOp n =>
        by_cases hL : st.lifecycle = .Disposed
        · simp [Controller.applyOp, Controller.getVariable, hL, Except.map] at h
        · simp only [Controller.applyOp, Controller.getVariable, if_neg hL,
            Except.map, Except.ok.injEq] at h
          subst h
          exact ⟨rfl, rfl⟩
    | setVarOp n v =>
        by_cases hL : st.lifecycle = .Disposed
        · simp [Controller.applyOp, Controller.setVariable, hL] at h
        · simp only [Controller.applyOp, Controller.setVariable, if_neg hL,
            Except.ok.injEq] at h
          subst h
          exact ⟨rfl, rfl⟩
    | resetOp =>
        by_cases hL : st.lifecycle = .Disposed
        · simp [Controller.applyOp, Controller.reset, hL] at h
        · simp only [Controller.applyOp, Controller.reset, if_neg hL,
            Except.ok.injEq] at h
          subst h
          exact ⟨rfl, rfl⟩
    | getLastErrorOp =>
        by_cases hL : st.lifecycle = .Disposed
        · simp [Controller.applyOp, Controller.getLastError, hL, Except.map] at h
        · simp only [Controller.applyOp, Controller.getLastError, if_neg hL,
            Except.map, Except.ok.injEq] at h
          subst h
          exact ⟨rfl, rfl⟩
    | clearErrorOp =>
        by_cases hL : st.lifecycle = .Disposed
        · simp [Controller.applyOp, Controller.clearError, hL] at h
        · simp only [Controller.applyOp, Controller.clearError, if_neg hL,
            Except.ok.injEq] at h
          subst h
          exact ⟨rfl, rfl⟩
  · intro st hL
    simp [Controller.flush, hL]
  · intro g st c1 c2 args1 args2 u1 u2 r1 r2 st1 st2 st3 hL hB1 hB2 hg1 hg2 he1 he2 hf
    simp [Controller.eval, hL, evalGuest, hg1] at he1
    obtain ⟨hr1, hst1⟩ := he1
    subst hst1
    simp [Controller.eval, hL, evalGuest, hg2] at he2
    obtain ⟨hr2, hst2⟩ := he2
    subst hst2
    simp [Controller.flush, hL] at hf
    subst hf
    simp [hB1, hB2]

/-- Witness for C7: a fresh Ready session, a guest printing a for the
code string A and b otherwise: after two evals and one flush the stdout
sink has received exactly a then b. -/
theorem c7_witness :
    readyState.eval gAB "A" [] = .ok ({ success := true, exitCode := 0, error := none },
      { readyState with bufferedStdout := ["a"] }) ∧
    ({ readyState with bufferedStdout := ["a"] } : Controller).eval gAB "B" []
      = .ok ({ success := true, exitCode := 0, error := none },
        { readyState with bufferedStdout := ["a", "b"] }) ∧
    ({ readyState with bufferedStdout := ["a", "b"] } : Controller).flush
      = .ok { readyState with deliveredStdout := ["a", "b"] } ∧
    ({ readyState with deliveredStdout := ["a", "b"] } : Controller).deliveredStdout
        = readyState.deliveredStdout ++ ["a", "b"] ∧
    ({ readyState with deliveredStdout := ["a", "b"] } : Controller).bufferedStdout = [] :=
  ⟨by rfl, by rfl, by rfl,
   c7_flush_ordering.2.2 gAB readyState "A" "B" [] [] [] []
     { success := true, exitCode := 0, error := none }
     { success := true, exitCode := 0, error := none }
     { readyState with bufferedStdout := ["a"] }
     { readyState with bufferedStdout := ["a", "b"] }
     { readyState with deliveredStdout := ["a", "b"] }
     rfl rfl rfl (by rfl) (by rfl) (by rfl) (by rfl) (by rfl)⟩

/-- C8: runFile on a path with no node in the virtual filesystem
returns success false, sets the session lastError to the file-not-found
message, and never invokes the guest: the outcome is identical for
every guest program and the session bindings and buffered output are
untouched. -/
theorem c8_runFile_not_found :
    ∀ (g : GuestProgram) (st : Controller) (path : String) (args : List String),
      st.lifecycle = .Ready →
      lookupFS st.fs path = none →
      st.runFile g path args = .ok
        ({ success := false, exitCode := 1, error := some "File not found" },
         { st with lastError := "File not found" }) ∧
      (∀ g' : GuestProgram, st.runFile g' path args = st.runFile g path args) ∧
      ({ st with lastError := "File not found" } : Controller).vars = st.vars ∧
      ({ st with lastError := "File not found" } : Controller).bufferedStdout
          = st.bufferedStdout := by
  intro g st path args hL hlk
  have key : ∀ g0 : GuestProgram, st.runFile g0 path args = .ok
      ({ success := false, exitCode := 1, error := some "File not found" },
       { st with lastError := "File not found" }) := by
    intro g0
    simp [Controller.runFile, hL, hlk]
  exact ⟨key g, fun g' => (key g').trans (key g).symm, rfl, rfl⟩

/-- Witness for C8: running a nonexistent path on a fresh session with
an empty filesystem fails with the file-not-found error. -/
theorem c8_witness :
    readyState.runFile gQuiet "/nonexistent.pl" []
      = .ok ({ success := false, exitCode := 1, error := some "File not found" },
        { readyState with lastError := "File not found" }) :=
  (c8_runFile_not_found gQuiet readyState "/nonexistent.pl" [] rfl rfl).1

/-- C9: on a Ready session, setVariable followed by getVariable on the
same name returns the value just set; a later setVariable on the same
name overwrites it, and setting a different name leaves it alone, so
getVariable always reads the most recently set value. -/
theorem c9_set_get_roundtrip :
    ∀ (st : Controller) (n v w : String),
      st.lifecycle = .Ready →
      st.setVariable n v = .ok { st with vars := (n, v) :: st.vars } ∧
      ({ st with vars := (n, v) :: st.vars } : Controller).getVariable n
          = .ok (some v, { st with vars := (n, v) :: st.vars }) ∧
      (∀ m u, m ≠ n →
        ({ st with vars := (n, v) :: st.vars } : Controller).setVariable m u
            = .ok { st with vars := (m, u) :: (n, v) :: st.vars } ∧
        ({ st with vars := (m, u) :: (n, v) :: st.vars } : Controller).getVariable n
            = .ok (some v, { st with vars := (m, u) :: (n, v) :: st.vars })) ∧
      ({ st with vars := (n, v) :: st.vars } : Controller).setVariable n w
          = .ok { st with vars := (n, w) :: (n, v) :: st.vars } ∧
      ({ st with vars := (n, w) :: (n, v) :: st.vars } : Controller).getVariable n
          = .ok (some w, { st with vars := (n, w) :: (n, v) :: st.vars }) := by
  intro st n v w hL
  refine ⟨?_, ?_, ?_, ?_, ?_⟩
  · simp [Controller.setVariable, hL]
  · simp [Controller.getVariable, hL, getVar]
  · intro m u hm
    exact ⟨by simp [Controller.setVariable, hL],
      by simp [Controller.getVariable, hL, getVar, hm]⟩
  · simp [Controller.setVariable, hL]
  · simp [Controller.getVariable, hL, getVar]

/-- Witness for C9: setting name to Alice reads back Alice, an
unrelated binding leaves it alone, and overwriting with Bob reads back
Bob. -/
theorem c9_witness :
    readyState.setVariable "name" "Alice"
        = .ok { readyState with vars := [("name", "Alice")] } ∧
    ({ readyState with vars := [("name", "Alice")] } : Controller).getVariable "name"
        = .ok (some "Alice", { readyState with vars := [("name", "Alice")] }) ∧
    ({ readyState with vars := [("other", "Z"), ("name", "Alice")] } : Controller).getVariable "name"
        = .ok (some "Alice",
          { readyState with vars := [("other", "Z"), ("name", "Alice")] }) ∧
    ({ readyState with vars := [("name", "Bob"), ("name", "Alice")] } : Controller).getVariable "name"
        = .ok (some "Bob",
          { readyState with vars := [("name", "Bob"), ("name", "Alice")] }) :=
  ⟨(c9_set_get_roundtrip readyState "name" "Alice" "Bob" rfl).1,
   (c9_set_get_roundtrip readyState "name" "Alice" "Bob" rfl).2.1,
   ((c9_set_get_roundtrip readyState "name" "Alice" "Bob" rfl).2.2.1 "other" "Z"
      (by decide)).2,
   (c9_set_get_roundtrip readyState "name" "Alice" "Bob" rfl).2.2.2.2⟩

/-- C2: with the pre-flight resolution pass run over the filesystem,
reading any sequence of deferred-backed virtual files from guest code
within one evaluation yields exactly the supplied bytes of each file;
the resolution pass caches every Deferred node, the open, read and
close syscalls never touch the cache or the node table, so resolution
never happens mid-syscall; and a synchronous open of a Deferred node
that is not in the cache cannot proceed, surfacing notResolved. -/
theorem c2_deferred_exact_reads :
    (∀ (fs : MemFS) (paths : List String) (bs : String → List Nat)
        (r : List (List Nat) × FSState),
        (∀ p ∈ paths, lookupFS fs p = some (.deferred (bs p))) →
        readFilesSeq ⟨fs, resolveAll fs, []⟩ paths = .ok r →
        r.1 = paths.map bs ∧ r.2.fs = fs ∧ r.2.cache = resolveAll fs) ∧
    (∀ (fs : MemFS) (paths : List String) (bs : String → List Nat),
        (∀ p ∈ paths, lookupFS fs p = some (.deferred (bs p))) →
        ∃ r, readFilesSeq ⟨fs, resolveAll fs, []⟩ paths = .ok r) ∧
    (∀ (fs : MemFS) (p : String) (b : List Nat),
        lookupFS fs p = some (.deferred b) →
        lookupCache (resolveAll fs) p = some b) ∧
    (∀ (st st' : FSState) (fd : Nat) (p : String),
        openFile st p = .ok (fd, st') → st'.fs = st.fs ∧ st'.cache = st.cache) ∧
    (∀ (st st' : FSState) (fd n : Nat) (out : List Nat),
        readFD st fd n = .ok (out, st') → st'.fs = st.fs ∧ st'.cache = st.cache) ∧
    (∀ (st st' : FSState) (fd : Nat),
        closeFD st fd = .ok st' → st'.fs = st.fs ∧ st'.cache = st.cache) ∧
    (∀ (st : FSState) (p : String) (b : List Nat),
        lookupFS st.fs p = some (.deferred b) → lookupCache st.cache p = none →
        openFile st p = .error .notResolved) := by
  refine ⟨?_, ?_, fun fs p b h => resolveAll_lookup h,
    fun _ _ _ _ h => openFile_preserves h,
    fun _ _ _ _ _ h => readFD_preserves h,
    fun _ _ _ h => closeFD_preserves h,
    fun _ _ _ h1 h2 => openFile_notResolved h1 h2⟩
  · intro fs paths bs r hall hrun
    obtain ⟨t', heq⟩ := readFilesSeq_deferred fs (resolveAll fs) [] paths bs
      (fun p hp => ⟨hall p hp, resolveAll_lookup (hall p hp)⟩)
    rw [heq] at hrun
    simp only [Except.ok.injEq] at hrun
    subst hrun
    exact ⟨rfl, rfl, rfl⟩
  · intro fs paths bs hall
    obtain ⟨t', heq⟩ := readFilesSeq_deferred fs (resolveAll fs) [] paths bs
      (fun p hp => ⟨hall p hp, resolveAll_lookup (hall p hp)⟩)
    exact ⟨_, heq⟩

/-- Witness for C2: the three deferred files of the test scenario read
back exactly their supplied bytes, in order, in one evaluation. -/
theorem c2_witness :
    readFilesSeq ⟨fsW, resolveAll fsW, []⟩ pathsW
      = .ok (pathsW.map bsW, ⟨fsW, resolveAll fsW, [none]⟩) ∧
    [utf8Bytes "First async file", utf8Bytes "Second async file",
        utf8Bytes "Third async file"]
      = pathsW.map bsW :=
  ⟨by rfl,
   ((c2_deferred_exact_reads.1 fsW pathsW bsW
      ([utf8Bytes "First async file", utf8Bytes "Second async file",
        utf8Bytes "Third async file"], ⟨fsW, resolveAll fsW, [none]⟩)
      (by decide) (by rfl)).1)⟩

end ZeroPerl

